import Mathlib

/-!
Verification of the pixel-block compression core of an OpenEXR-style codec
(`src/file/compress.rs`).

The file has two layers:

* a direct shallow embedding of the code that exists in `compress.rs`
  (the `Compression` enum and its two property methods, and the dispatcher
  `compress`/`decompress` whose unimplemented arms abort the process —
  modelled by the `SrcOutcome.panic` constructor);

* spec-modelled definitions for the parts of the codec whose bodies are
  missing from the source (`unimplemented!()` stubs, and the `file::io` /
  `image` modules that are not part of the excerpt): the byte packing and
  unpacking of typed samples, the byte-wise delta filter, and the
  error-taxonomy dispatcher. Each such definition carries a doc comment
  starting with `Modelled from the spec:`.
-/

namespace Exr

/-- Pixel sample encoding (`PixelType` in `file::attributes`, not part of the
excerpt): 32-bit unsigned int, 16-bit float, 32-bit float. Float samples are
represented by their raw bit patterns, since the codec only moves bytes. -/
inductive PixelType where
  | U32
  | F16
  | F32
deriving DecidableEq

/-- Modelled from the spec: the per-sample byte widths (4, 2, 4) of the three
pixel types; the width table lives outside the excerpt. -/
def PixelType.bytesPerSample : PixelType → Nat
  | .U32 => 4
  | .F16 => 2
  | .F32 => 4

/-- Modelled from the spec: a channel's name, pixel type and subsampling
factors (`Channel` in `file::attributes`, not part of the excerpt). -/
structure Channel where
  name : String
  pixel_type : PixelType
  subsampling_x : Nat
  subsampling_y : Nat
deriving DecidableEq

/-- Modelled from the spec: a block's pixel dimensions at its target
resolution level (already resolved for mip/rip level and edge clipping by the
caller; the resolution code is outside the excerpt). -/
structure BlockGeometry where
  width : Nat
  height : Nat
deriving DecidableEq

/-- A typed per-channel flat sample buffer (`PixelData` in `image`, not part
of the excerpt): one variant per pixel type, samples stored as raw values
(bit patterns for the float variants). -/
inductive PixelData where
  | U32 (samples : List Nat)
  | F16 (samples : List Nat)
  | F32 (samples : List Nat)
deriving DecidableEq

/-- The storage variant tag of a pixel buffer. -/
def PixelData.typeOf : PixelData → PixelType
  | .U32 _ => .U32
  | .F16 _ => .F16
  | .F32 _ => .F32

/-- The raw sample list of a pixel buffer. -/
def PixelData.samples : PixelData → List Nat
  | .U32 vs => vs
  | .F16 vs => vs
  | .F32 vs => vs

/-- Build the pixel buffer of a given type from a sample list. -/
def PixelData.make : PixelType → List Nat → PixelData
  | .U32, vs => .U32 vs
  | .F16, vs => .F16 vs
  | .F32, vs => .F32 vs

/-- `ScanLineBlock` from `image` (not part of the excerpt): per-channel
pixel buffers in channel order. -/
structure ScanLineBlock where
  per_channel_data : List PixelData
deriving DecidableEq

/-- `TileBlock` from `image` (not part of the excerpt). -/
structure TileBlock where
  per_channel_data : List PixelData
deriving DecidableEq

/-- `DeepScanLineBlock` from `image` (not part of the excerpt): the
per-pixel sample-count sequence plus per-channel buffers. -/
structure DeepScanLineBlock where
  per_pixel_sample_counts : List Nat
  per_channel_data : List PixelData
deriving DecidableEq

/-- `DeepTileBlock` from `image` (not part of the excerpt). -/
structure DeepTileBlock where
  per_pixel_sample_counts : List Nat
  per_channel_data : List PixelData
deriving DecidableEq

/-- `DataSection` (`compress.rs` lines 18–23): the unit exchanged between the
dispatcher and its callers. -/
inductive DataSection where
  | ScanLine (block : ScanLineBlock)
  | Tile (block : TileBlock)
  | DeepScanLine (block : DeepScanLineBlock)
  | DeepTile (block : DeepTileBlock)
deriving DecidableEq

/-- `BlockKind` from `image` (not part of the excerpt): selects the storage
container and size-computation path. -/
inductive BlockKind where
  | ScanLine
  | Tile
  | DeepScanLine
  | DeepTile
deriving DecidableEq

/-- The block kind of a data section. -/
def DataSection.kind : DataSection → BlockKind
  | .ScanLine _ => .ScanLine
  | .Tile _ => .Tile
  | .DeepScanLine _ => .DeepScanLine
  | .DeepTile _ => .DeepTile

/-- `Compression` (`compress.rs` lines 29–57): the eight method tags. -/
inductive Compression where
  | None
  | RLE
  | ZIPS
  | ZIP
  | PIZ
  | PXR24
  | B44
  | B44A
deriving DecidableEq

/-- `Compression::scan_lines_per_block` (`compress.rs` lines 90–98),
translated clause for clause. -/
def Compression.scan_lines_per_block : Compression → Nat
  | .None | .RLE | .ZIPS => 1
  | .ZIP | .PXR24 => 16
  | .PIZ | .B44 | .B44A => 32

/-- `Compression::supports_deep_data` (`compress.rs` lines 100–106),
translated clause for clause. -/
def Compression.supports_deep_data : Compression → Bool
  | .None | .RLE | .ZIPS | .ZIP => true
  | _ => false

/-! ## Direct embedding of the source dispatcher

`compress.rs` defines `CompressionError` with the single variant
`ZipError(String)`, and `Result<T> = Result<T, CompressionError>`. Every
codec body in the excerpt either succeeds, or reaches an `unimplemented!()`
macro / an `.expect(..)` call, both of which abort the process (a Rust
panic). The abort outcome is embedded explicitly as `SrcOutcome.panic`. -/

/-- `CompressionError` (`compress.rs` lines 7–10): the source error enum has
exactly one variant, `ZipError(String)`. -/
inductive SrcCompressionError where
  | ZipError (message : String)
deriving DecidableEq

/-- Outcome of running a source function: an `Ok` value, an `Err` value of
the source's error enum, or a process abort (`unimplemented!()` / failed
`.expect`), which is not a return value at all. -/
inductive SrcOutcome (α : Type) where
  | ok (value : α)
  | err (e : SrcCompressionError)
  | panic
deriving DecidableEq

/-- `uncompressed::pack` (`compress.rs` lines 165–167): the body is a bare
`unimplemented!()`, so every call aborts. -/
def srcPack (_data : DataSection) : SrcOutcome (List Nat) :=
  .panic

/-- `zip::compress` (`compress.rs` lines 188–196): the body begins with
`unimplemented!("encode the first derivative")`, so every call aborts before
reaching the encoder. -/
def srcZipCompress (_data : DataSection) : SrcOutcome (List Nat) :=
  .panic

/-- `zip::decompress` (`compress.rs` lines 178–186): decoder construction and
`read_to_end` use `.expect` (abort on failure), and the body then reaches
`unimplemented!("sum up because we encoded the first derivative")`; every
path aborts. -/
def srcZipDecompress (_data : List Nat) (_uncompressed_size : Option Nat) :
    SrcOutcome DataSection :=
  .panic

/-- `uncompressed::unpack` (`compress.rs` lines 112–163): for `ScanLine`
blocks the per-channel loop's first statement is
`unimplemented!("calculate size based on ...")`, so the call aborts as soon
as there is at least one channel; with an empty channel list the loop body
never runs and the function returns an empty scan-line block. The `Tile`,
`DeepScanLine` and `DeepTile` arms are bare `unimplemented!()`. -/
def srcUnpack (block_kind : BlockKind) (_data : List Nat)
    (target_channels : List Channel) : SrcOutcome DataSection :=
  match block_kind with
  | .ScanLine =>
    match target_channels with
    | [] => .ok (.ScanLine ⟨[]⟩)
    | _ :: _ => .panic
  | .Tile => .panic
  | .DeepScanLine => .panic
  | .DeepTile => .panic

/-- `compress` (`compress.rs` lines 60–68): dispatch on the method; `None`
routes to `uncompressed::pack`, `ZIP` and `ZIPS` both route to
`zip::compress`, every other method is `_ => unimplemented!()`. -/
def srcCompress (method : Compression) (data : DataSection) :
    SrcOutcome (List Nat) :=
  match method with
  | .None => srcPack data
  | .ZIP => srcZipCompress data
  | .ZIPS => srcZipCompress data
  | _ => .panic

/-- `decompress` (`compress.rs` lines 70–83): dispatch on the method; `None`
routes to `uncompressed::unpack`, `ZIP` and `ZIPS` both route to
`zip::decompress`, `RLE` and the remaining methods are `unimplemented!()`. -/
def srcDecompress (method : Compression) (block_kind : BlockKind)
    (data : List Nat) (uncompressed_size : Option Nat)
    (channels : List Channel) : SrcOutcome DataSection :=
  match method with
  | .None => srcUnpack block_kind data channels
  | .ZIP => srcZipDecompress data uncompressed_size
  | .ZIPS => srcZipDecompress data uncompressed_size
  | .RLE => .panic
  | _ => .panic

/-! ## Byte-level sample packing (spec-modelled)

The size computation, the `file::io` read helpers and the body of
`uncompressed::pack` are missing from the excerpt (`unimplemented!()` stubs
or excluded modules); the definitions below model them from the spec
(§3 geometry formula, §4.2 packing layout, §6 byte format). Bytes are
naturals; every byte the code produces is `< 256` by construction. -/

/-- Modelled from the spec: little-endian byte encoding of one sample value
into `w` bytes (the `file::io` write helpers are not part of the excerpt). -/
def bytesOfNat : Nat → Nat → List Nat
  | 0, _ => []
  | w + 1, v => v % 256 :: bytesOfNat w (v / 256)

/-- Modelled from the spec: read one `w`-byte little-endian value from the
front of a byte stream; `none` when fewer than `w` bytes remain (the
`file::io` read helpers are not part of the excerpt). -/
def readUInt : Nat → List Nat → Option (Nat × List Nat)
  | 0, l => some (0, l)
  | _ + 1, [] => none
  | w + 1, b :: rest =>
    (readUInt w rest).map fun vr => (b % 256 + 256 * vr.1, vr.2)

/-- Modelled from the spec: serialize a sample list back-to-back, `w` bytes
per sample, no padding or separators (§4.2). -/
def writeSamples (w : Nat) (vals : List Nat) : List Nat :=
  vals.foldr (fun v acc => bytesOfNat w v ++ acc) []

/-- Modelled from the spec: read `n` samples of `w` bytes each from the
front of a byte stream, returning the samples and the unconsumed rest;
`none` when the stream is too short (§4.2 `TruncatedInput` condition). -/
def readSamples (w : Nat) : Nat → List Nat → Option (List Nat × List Nat)
  | 0, l => some ([], l)
  | n + 1, l =>
    match readUInt w l with
    | none => none
    | some (v, r) => (readSamples w n r).map fun p => (v :: p.1, p.2)

/-- Ceiling division on naturals, the `(a + b - 1) / b` idiom used for
subsampled sample counts. -/
def ceilDivNat (a b : Nat) : Nat :=
  (a + b - 1) / b

/-- Modelled from the spec: the geometry-derived per-channel sample count of
a non-deep block, `⌈blockWidth / subsamplingX⌉ × ⌈blockHeight /
subsamplingY⌉` (§3); the size computation in `uncompressed::unpack` is an
`unimplemented!()` stub in the source. -/
def Channel.sampleCount (c : Channel) (g : BlockGeometry) : Nat :=
  ceilDivNat g.width c.subsampling_x * ceilDivNat g.height c.subsampling_y

/-- The raw bytes of one channel's sample buffer: each sample serialized at
its type's byte width, back-to-back. -/
def PixelData.packBytes (pd : PixelData) : List Nat :=
  writeSamples pd.typeOf.bytesPerSample pd.samples

/-- The per-channel buffers of a block concatenated strictly in channel
order, with no separators (§4.2, §6). -/
def packChannels (pds : List PixelData) : List Nat :=
  (pds.map PixelData.packBytes).flatten

/-- Modelled from the spec: `uncompressed::pack` (§4.2) — the source body is
`unimplemented!()`. For deep blocks the per-pixel sample-count sequence is
written first, 4 bytes per pixel (§4.2 deep clause), then the channels. -/
def pack : DataSection → List Nat
  | .ScanLine b => packChannels b.per_channel_data
  | .Tile b => packChannels b.per_channel_data
  | .DeepScanLine b =>
    writeSamples 4 b.per_pixel_sample_counts ++ packChannels b.per_channel_data
  | .DeepTile b =>
    writeSamples 4 b.per_pixel_sample_counts ++ packChannels b.per_channel_data

/-- Modelled from the spec: the error taxonomy of §7; the source enum
(`SrcCompressionError`) lacks all of these variants. -/
inductive CompressionError where
  | Unsupported (method : Compression)
  | SizeMismatch (expected : Nat) (actual : Nat)
  | TruncatedInput
  | DecodeFailure
  | EncodeFailure
deriving DecidableEq

/-- The outcome type of the modelled codec operations (`Result<T>` with the
spec's error taxonomy). -/
inductive CResult (α : Type) where
  | ok (value : α)
  | err (e : CompressionError)
deriving DecidableEq

/-- Chain two fallible codec steps. -/
def CResult.bind : CResult α → (α → CResult β) → CResult β
  | .ok v, f => f v
  | .err e, _ => .err e

/-- Map over a successful codec result. -/
def CResult.map (f : α → β) : CResult α → CResult β
  | .ok v => .ok (f v)
  | .err e => .err e

/-- Modelled from the spec: read one channel's buffer of `n` samples from
the front of the byte stream (§4.2); `none` is the truncated-input case. -/
def readChannelN (c : Channel) (n : Nat) (bytes : List Nat) :
    Option (PixelData × List Nat) :=
  (readSamples c.pixel_type.bytesPerSample n bytes).map fun p =>
    (PixelData.make c.pixel_type p.1, p.2)

/-- Modelled from the spec: consume the channels in order, each taking the
sample count given by `count`; bytes left over after the last channel are
accepted (§4.2). -/
def unpackChannelsWith (count : Channel → Nat) :
    List Channel → List Nat → CResult (List PixelData)
  | [], _ => .ok []
  | c :: cs, bytes =>
    match readChannelN c (count c) bytes with
    | none => .err .TruncatedInput
    | some (pd, rest) => (unpackChannelsWith count cs rest).map (pd :: ·)

/-- Modelled from the spec: `uncompressed::unpack` (§4.2) — the source's
size computation and non-scan-line arms are `unimplemented!()` stubs. Deep
blocks first read the 4-byte-per-pixel sample-count sequence (one entry per
pixel of the block), then each channel's buffer of `sum(counts)` samples. -/
def unpack (block_kind : BlockKind) (bytes : List Nat)
    (channels : List Channel) (g : BlockGeometry) : CResult DataSection :=
  match block_kind with
  | .ScanLine =>
    (unpackChannelsWith (fun c => c.sampleCount g) channels bytes).map
      fun pds => .ScanLine ⟨pds⟩
  | .Tile =>
    (unpackChannelsWith (fun c => c.sampleCount g) channels bytes).map
      fun pds => .Tile ⟨pds⟩
  | .DeepScanLine =>
    match readSamples 4 (g.width * g.height) bytes with
    | none => .err .TruncatedInput
    | some (counts, rest) =>
      (unpackChannelsWith (fun _ => counts.sum) channels rest).map
        fun pds => .DeepScanLine ⟨counts, pds⟩
  | .DeepTile =>
    match readSamples 4 (g.width * g.height) bytes with
    | none => .err .TruncatedInput
    | some (counts, rest) =>
      (unpackChannelsWith (fun _ => counts.sum) channels rest).map
        fun pds => .DeepTile ⟨counts, pds⟩

/-! ## The delta filter and the ZIP/ZIPS codec (spec-modelled) -/

/-- Modelled from the spec: the tail of the byte-wise delta filter
(§4.3 (b)): each byte is replaced by its difference from the previous
original byte, modulo 256. The source's body is
`unimplemented!("encode the first derivative")`. -/
def deltaEncodeFrom : Nat → List Nat → List Nat
  | _, [] => []
  | prev, b :: rest => (b + 256 - prev % 256) % 256 :: deltaEncodeFrom b rest

/-- Modelled from the spec: the byte-wise delta filter, `byte[0]`
unchanged (§4.3 (b)). -/
def deltaEncode : List Nat → List Nat
  | [] => []
  | b :: rest => b :: deltaEncodeFrom b rest

/-- Modelled from the spec: the tail of the inverse filter (§4.3 (b) of the
decode path): running sum modulo 256, carrying the previously decoded
byte. The source's body is `unimplemented!("sum up because we encoded the
first derivative")`. -/
def deltaDecodeFrom : Nat → List Nat → List Nat
  | _, [] => []
  | prev, b :: rest => (b + prev) % 256 :: deltaDecodeFrom ((b + prev) % 256) rest

/-- Modelled from the spec: the inverse of the delta filter, `byte[0]`
unchanged. -/
def deltaDecode : List Nat → List Nat
  | [] => []
  | b :: rest => b :: deltaDecodeFrom b rest

/-- Modelled from the spec: total byte size of the channel region of a
non-deep block (§3 length invariant times the per-sample width, summed in
channel order). -/
def channelsByteSize (channels : List Channel) (g : BlockGeometry) : Nat :=
  (channels.map fun c => c.sampleCount g * c.pixel_type.bytesPerSample).sum

/-- Modelled from the spec: total byte size of the channel region of a deep
block with the given total sample count. -/
def deepChannelsByteSize (channels : List Channel) (total : Nat) : Nat :=
  (channels.map fun c => total * c.pixel_type.bytesPerSample).sum

/-- Modelled from the spec: the geometry-derived uncompressed byte size of a
block (§4.1). For deep blocks the channel region depends on the sample-count
sequence at the front of the (already restored) buffer; `none` when that
sequence cannot even be read. -/
def derivedSize (k : BlockKind) (channels : List Channel) (g : BlockGeometry)
    (restored : List Nat) : Option Nat :=
  match k with
  | .ScanLine => some (channelsByteSize channels g)
  | .Tile => some (channelsByteSize channels g)
  | .DeepScanLine =>
    (readSamples 4 (g.width * g.height) restored).map fun p =>
      4 * (g.width * g.height) + deepChannelsByteSize channels p.1.sum
  | .DeepTile =>
    (readSamples 4 (g.width * g.height) restored).map fun p =>
      4 * (g.width * g.height) + deepChannelsByteSize channels p.1.sum

/-- Modelled from the spec: validate a supplied expected uncompressed size
against the geometry-derived size; a mismatch is `SizeMismatch`, never
silently tolerated (§4.1, §7). When the deep count sequence cannot be read,
validation is skipped and `unpack` reports `TruncatedInput` instead. -/
def validateSize (expected : Option Nat) (k : BlockKind)
    (channels : List Channel) (g : BlockGeometry) (restored : List Nat) :
    CResult Unit :=
  match expected with
  | none => .ok ()
  | some e =>
    match derivedSize k channels g restored with
    | none => .ok ()
    | some d => if e = d then .ok () else .err (.SizeMismatch e d)

/-- Modelled from the spec: `zip::compress` (§4.3): pack via the
Uncompressed Codec, delta-filter, then run the external deflate-style
compressor (out of scope per §6, passed in as a function). -/
def zipCompress (deflate : List Nat → List Nat) (data : DataSection) :
    CResult (List Nat) :=
  .ok (deflate (deltaEncode (pack data)))

/-- Modelled from the spec: `zip::decompress` (§4.3): inflate (failure is
`DecodeFailure`), invert the delta filter, validate the supplied size, then
unpack with the same block kind / channels / geometry. -/
def zipDecompress (inflate : List Nat → Option (List Nat)) (bytes : List Nat)
    (expected : Option Nat) (k : BlockKind) (channels : List Channel)
    (g : BlockGeometry) : CResult DataSection :=
  match inflate bytes with
  | none => .err .DecodeFailure
  | some buf =>
    (validateSize expected k channels g (deltaDecode buf)).bind fun _ =>
      unpack k (deltaDecode buf) channels g

/-- Modelled from the spec: the dispatcher `compress` (§4.1): `None` routes
to the Uncompressed Codec, `ZIP`/`ZIPS` to the delta+deflate codec, every
other method is the declared `Unsupported` error. -/
def compress (method : Compression) (deflate : List Nat → List Nat)
    (data : DataSection) : CResult (List Nat) :=
  match method with
  | .None => .ok (pack data)
  | .ZIP => zipCompress deflate data
  | .ZIPS => zipCompress deflate data
  | _ => .err (.Unsupported method)

/-- Modelled from the spec: the dispatcher `decompress` (§4.1): `None`
validates the supplied size and unpacks directly, `ZIP`/`ZIPS` route to the
delta+deflate codec, every other method is the declared `Unsupported`
error. -/
def decompress (method : Compression) (inflate : List Nat → Option (List Nat))
    (block_kind : BlockKind) (bytes : List Nat) (expected : Option Nat)
    (channels : List Channel) (g : BlockGeometry) : CResult DataSection :=
  match method with
  | .None =>
    (validateSize expected block_kind channels g bytes).bind fun _ =>
      unpack block_kind bytes channels g
  | .ZIP => zipDecompress inflate bytes expected block_kind channels g
  | .ZIPS => zipDecompress inflate bytes expected block_kind channels g
  | _ => .err (.Unsupported method)

/-! ## Well-formedness of a data section -/

/-- A pixel buffer fits a channel with `n` expected samples: matching
storage variant, exact length, and every sample value within its type's
byte-width range (needed for byte-level serialization to be injective). -/
def PixelData.wfForCount (pd : PixelData) (c : Channel) (n : Nat) : Bool :=
  pd.typeOf == c.pixel_type && pd.samples.length == n &&
    pd.samples.all fun v => decide (v < 256 ^ pd.typeOf.bytesPerSample)

/-- The per-channel buffers pair off with the channel list, each fitting its
channel at the count prescribed by `count`. -/
def wfChannelDataWith (count : Channel → Nat) :
    List PixelData → List Channel → Bool
  | [], [] => true
  | pd :: pds, c :: cs => pd.wfForCount c (count c) && wfChannelDataWith count pds cs
  | _, _ => false

/-- A well-formed data section for a channel list and block geometry (§3):
non-deep blocks carry one buffer per channel of the geometry-derived length;
deep blocks carry a sample count per pixel (each a 32-bit value) and one
buffer per channel of total length `sum(counts)`. -/
def DataSection.wf : DataSection → List Channel → BlockGeometry → Bool
  | .ScanLine b, cs, g => wfChannelDataWith (fun c => c.sampleCount g) b.per_channel_data cs
  | .Tile b, cs, g => wfChannelDataWith (fun c => c.sampleCount g) b.per_channel_data cs
  | .DeepScanLine b, cs, g =>
    b.per_pixel_sample_counts.length == g.width * g.height &&
    (b.per_pixel_sample_counts.all fun v => decide (v < 256 ^ 4)) &&
    wfChannelDataWith (fun _ => b.per_pixel_sample_counts.sum) b.per_channel_data cs
  | .DeepTile b, cs, g =>
    b.per_pixel_sample_counts.length == g.width * g.height &&
    (b.per_pixel_sample_counts.all fun v => decide (v < 256 ^ 4)) &&
    wfChannelDataWith (fun _ => b.per_pixel_sample_counts.sum) b.per_channel_data cs

/-! ## Round-trip lemmas for the byte layer -/

theorem bytesOfNat_lt_256 (w v : Nat) : ∀ b ∈ bytesOfNat w v, b < 256 := by
  induction w generalizing v with
  | zero => intro b hb; simp [bytesOfNat] at hb
  | succ w ih =>
    intro b hb
    simp only [bytesOfNat, List.mem_cons] at hb
    rcases hb with h | h
    · omega
    · exact ih _ b h

theorem readUInt_bytesOfNat (w v : Nat) (rest : List Nat) (hv : v < 256 ^ w) :
    readUInt w (bytesOfNat w v ++ rest) = some (v, rest) := by
  induction w generalizing v with
  | zero =>
    have hz : v = 0 := by simpa using hv
    subst hz
    rfl
  | succ w ih =>
    have hv' : v / 256 < 256 ^ w := by
      rw [pow_succ] at hv
      omega
    simp only [bytesOfNat, List.cons_append, readUInt, List.append_eq]
    rw [ih _ hv']
    have harith : v % 256 + 256 * (v / 256) = v := by omega
    simp [harith]

theorem writeSamples_cons (w v : Nat) (vs : List Nat) :
    writeSamples w (v :: vs) = bytesOfNat w v ++ writeSamples w vs := rfl

theorem readSamples_writeSamples (w : Nat) (vals rest : List Nat)
    (hv : ∀ v ∈ vals, v < 256 ^ w) :
    readSamples w vals.length (writeSamples w vals ++ rest) = some (vals, rest) := by
  induction vals with
  | nil => rfl
  | cons v vs ih =>
    simp only [List.length_cons, writeSamples_cons, List.append_assoc, readSamples]
    rw [readUInt_bytesOfNat w v _ (hv v (List.mem_cons_self v vs))]
    show Option.map (fun p => (v :: p.1, p.2))
      (readSamples w vs.length (writeSamples w vs ++ rest)) = some (v :: vs, rest)
    rw [ih fun x hx => hv x (List.mem_cons_of_mem v hx)]
    rfl

theorem PixelData.make_typeOf (pd : PixelData) :
    PixelData.make pd.typeOf pd.samples = pd := by
  cases pd <;> rfl

theorem readChannelN_packBytes (c : Channel) (pd : PixelData) (n : Nat)
    (rest : List Nat) (hwf : pd.wfForCount c n = true) :
    readChannelN c n (pd.packBytes ++ rest) = some (pd, rest) := by
  simp only [PixelData.wfForCount, Bool.and_eq_true, beq_iff_eq,
    List.all_eq_true, decide_eq_true_eq] at hwf
  obtain ⟨⟨hty, hlen⟩, hbound⟩ := hwf
  unfold readChannelN PixelData.packBytes
  rw [← hty, ← hlen, readSamples_writeSamples _ _ _ hbound]
  simp [PixelData.make_typeOf]

theorem packChannels_cons (pd : PixelData) (pds : List PixelData) :
    packChannels (pd :: pds) = pd.packBytes ++ packChannels pds := by
  simp [packChannels]

theorem unpackChannelsWith_packChannels (count : Channel → Nat)
    (pds : List PixelData) : ∀ (cs : List Channel) (rest : List Nat),
    wfChannelDataWith count pds cs = true →
    unpackChannelsWith count cs (packChannels pds ++ rest) = .ok pds := by
  induction pds with
  | nil =>
    intro cs rest hwf
    cases cs with
    | nil => rfl
    | cons c cs => simp [wfChannelDataWith] at hwf
  | cons pd pds ih =>
    intro cs rest hwf
    cases cs with
    | nil => simp [wfChannelDataWith] at hwf
    | cons c cs =>
      simp only [wfChannelDataWith, Bool.and_eq_true] at hwf
      rw [packChannels_cons, List.append_assoc]
      simp only [unpackChannelsWith]
      rw [readChannelN_packBytes c pd (count c) _ hwf.1]
      show CResult.map (fun x => pd :: x)
        (unpackChannelsWith count cs (packChannels pds ++ rest)) = .ok (pd :: pds)
      rw [ih cs rest hwf.2]
      rfl

theorem unpack_pack (ds : DataSection) (cs : List Channel) (g : BlockGeometry)
    (hwf : ds.wf cs g = true) :
    unpack ds.kind (pack ds) cs g = .ok ds := by
  cases ds with
  | ScanLine b =>
    simp only [DataSection.wf] at hwf
    have h := unpackChannelsWith_packChannels
      (fun c => c.sampleCount g) b.per_channel_data cs [] hwf
    simp only [List.append_nil] at h
    simp [DataSection.kind, pack, unpack, h, CResult.map]
  | Tile b =>
    simp only [DataSection.wf] at hwf
    have h := unpackChannelsWith_packChannels
      (fun c => c.sampleCount g) b.per_channel_data cs [] hwf
    simp only [List.append_nil] at h
    simp [DataSection.kind, pack, unpack, h, CResult.map]
  | DeepScanLine b =>
    simp only [DataSection.wf, Bool.and_eq_true, beq_iff_eq,
      List.all_eq_true, decide_eq_true_eq] at hwf
    obtain ⟨⟨hlen, hbound⟩, hch⟩ := hwf
    have h := unpackChannelsWith_packChannels
      (fun _ => b.per_pixel_sample_counts.sum) b.per_channel_data cs [] hch
    simp only [List.append_nil] at h
    simp only [DataSection.kind, pack, unpack, ← hlen,
      readSamples_writeSamples 4 _ _ hbound]
    simp [h, CResult.map]
  | DeepTile b =>
    simp only [DataSection.wf, Bool.and_eq_true, beq_iff_eq,
      List.all_eq_true, decide_eq_true_eq] at hwf
    obtain ⟨⟨hlen, hbound⟩, hch⟩ := hwf
    have h := unpackChannelsWith_packChannels
      (fun _ => b.per_pixel_sample_counts.sum) b.per_channel_data cs [] hch
    simp only [List.append_nil] at h
    simp only [DataSection.kind, pack, unpack, ← hlen,
      readSamples_writeSamples 4 _ _ hbound]
    simp [h, CResult.map]

theorem writeSamples_lt_256 (w : Nat) (vals : List Nat) :
    ∀ b ∈ writeSamples w vals, b < 256 := by
  induction vals with
  | nil => intro b hb; simp [writeSamples] at hb
  | cons v vs ih =>
    intro b hb
    rw [writeSamples_cons] at hb
    rcases List.mem_append.mp hb with h | h
    · exact bytesOfNat_lt_256 w v b h
    · exact ih b h

theorem packChannels_lt_256 (pds : List PixelData) :
    ∀ b ∈ packChannels pds, b < 256 := by
  induction pds with
  | nil => intro b hb; simp [packChannels] at hb
  | cons pd pds ih =>
    intro b hb
    rw [packChannels_cons] at hb
    rcases List.mem_append.mp hb with h | h
    · exact writeSamples_lt_256 _ _ b h
    · exact ih b h

theorem pack_lt_256 (ds : DataSection) : ∀ b ∈ pack ds, b < 256 := by
  cases ds with
  | ScanLine b => exact packChannels_lt_256 _
  | Tile b => exact packChannels_lt_256 _
  | DeepScanLine b =>
    intro x hx
    rcases List.mem_append.mp hx with h | h
    · exact writeSamples_lt_256 _ _ x h
    · exact packChannels_lt_256 _ x h
  | DeepTile b =>
    intro x hx
    rcases List.mem_append.mp hx with h | h
    · exact writeSamples_lt_256 _ _ x h
    · exact packChannels_lt_256 _ x h

/-! ## The delta filter and its inverse -/

theorem deltaDecodeFrom_deltaEncodeFrom (l : List Nat) :
    ∀ prev, prev < 256 → (∀ b ∈ l, b < 256) →
    deltaDecodeFrom prev (deltaEncodeFrom prev l) = l := by
  induction l with
  | nil => intro prev _ _; rfl
  | cons b rest ih =>
    intro prev hprev hl
    have hb : b < 256 := hl b (List.mem_cons_self b rest)
    simp only [deltaEncodeFrom, deltaDecodeFrom]
    have harith : ((b + 256 - prev % 256) % 256 + prev) % 256 = b := by omega
    rw [harith]
    rw [ih b hb fun x hx => hl x (List.mem_cons_of_mem b hx)]

theorem deltaEncodeFrom_deltaDecodeFrom (l : List Nat) :
    ∀ prev, prev < 256 → (∀ b ∈ l, b < 256) →
    deltaEncodeFrom prev (deltaDecodeFrom prev l) = l := by
  induction l with
  | nil => intro prev _ _; rfl
  | cons b rest ih =>
    intro prev hprev hl
    have hb : b < 256 := hl b (List.mem_cons_self b rest)
    simp only [deltaDecodeFrom, deltaEncodeFrom]
    have harith : ((b + prev) % 256 + 256 - prev % 256) % 256 = b := by omega
    rw [harith]
    rw [ih ((b + prev) % 256) (by omega) fun x hx => hl x (List.mem_cons_of_mem b hx)]

theorem deltaDecode_deltaEncode (l : List Nat) (hl : ∀ b ∈ l, b < 256) :
    deltaDecode (deltaEncode l) = l := by
  cases l with
  | nil => rfl
  | cons b rest =>
    simp only [deltaEncode, deltaDecode]
    rw [deltaDecodeFrom_deltaEncodeFrom rest b
      (hl b (List.mem_cons_self b rest))
      fun x hx => hl x (List.mem_cons_of_mem b hx)]

theorem deltaEncode_deltaDecode (l : List Nat) (hl : ∀ b ∈ l, b < 256) :
    deltaEncode (deltaDecode l) = l := by
  cases l with
  | nil => rfl
  | cons b rest =>
    simp only [deltaDecode, deltaEncode]
    rw [deltaEncodeFrom_deltaDecodeFrom rest b
      (hl b (List.mem_cons_self b rest))
      fun x hx => hl x (List.mem_cons_of_mem b hx)]

/-! ## Truncation lemmas: exactly when the byte stream is long enough -/

theorem readUInt_none (w : Nat) (l : List Nat) (h : l.length < w) :
    readUInt w l = none := by
  induction w generalizing l with
  | zero => omega
  | succ w ih =>
    cases l with
    | nil => rfl
    | cons b rest =>
      simp only [readUInt]
      rw [ih rest (by simpa using h)]
      rfl

theorem readUInt_some (w : Nat) (l : List Nat) (h : w ≤ l.length) :
    ∃ v, readUInt w l = some (v, l.drop w) := by
  induction w generalizing l with
  | zero => exact ⟨0, rfl⟩
  | succ w ih =>
    cases l with
    | nil => simp at h
    | cons b rest =>
      obtain ⟨v, hv⟩ := ih rest (by simpa using h)
      exact ⟨b % 256 + 256 * v, by simp [readUInt, hv]⟩

theorem readSamples_none (w n : Nat) (l : List Nat) (h : l.length < w * n) :
    readSamples w n l = none := by
  induction n generalizing l with
  | zero => simp at h
  | succ n ih =>
    simp only [readSamples]
    by_cases hw : w ≤ l.length
    · obtain ⟨v, hv⟩ := readUInt_some w l hw
      rw [hv]
      show Option.map (fun p => (v :: p.1, p.2)) (readSamples w n (l.drop w)) = none
      rw [ih (l.drop w) (by rw [List.length_drop, Nat.mul_succ] at *; omega)]
      rfl
    · rw [readUInt_none w l (by omega)]

theorem readSamples_some (w n : Nat) (l : List Nat) (h : w * n ≤ l.length) :
    ∃ vs, readSamples w n l = some (vs, l.drop (w * n)) := by
  induction n generalizing l with
  | zero => exact ⟨[], by simp [readSamples]⟩
  | succ n ih =>
    have hw : w ≤ l.length := by rw [Nat.mul_succ] at h; omega
    obtain ⟨v, hv⟩ := readUInt_some w l hw
    obtain ⟨vs, hvs⟩ := ih (l.drop w) (by rw [List.length_drop, Nat.mul_succ] at *; omega)
    refine ⟨v :: vs, ?_⟩
    simp only [readSamples, hv]
    show Option.map (fun p => (v :: p.1, p.2)) (readSamples w n (l.drop w))
      = some (v :: vs, l.drop (w * (n + 1)))
    rw [hvs, List.drop_drop]
    simp only [Option.map_some']
    rw [Nat.mul_succ, Nat.add_comm (w * n) w]

/-- Total byte requirement of a channel list under a per-channel sample
count, in consumption order. -/
def requiredByteSizeWith (count : Channel → Nat) (cs : List Channel) : Nat :=
  (cs.map fun c => c.pixel_type.bytesPerSample * count c).sum

theorem channelsByteSize_eq_required (cs : List Channel) (g : BlockGeometry) :
    channelsByteSize cs g = requiredByteSizeWith (fun c => c.sampleCount g) cs := by
  unfold channelsByteSize requiredByteSizeWith
  induction cs with
  | nil => rfl
  | cons c cs ih => simp only [List.map_cons, List.sum_cons, ih, Nat.mul_comm]

theorem readChannelN_none (c : Channel) (n : Nat) (bytes : List Nat)
    (h : bytes.length < c.pixel_type.bytesPerSample * n) :
    readChannelN c n bytes = none := by
  unfold readChannelN
  rw [readSamples_none _ _ _ h]
  rfl

theorem readChannelN_some (c : Channel) (n : Nat) (bytes : List Nat)
    (h : c.pixel_type.bytesPerSample * n ≤ bytes.length) :
    ∃ pd, readChannelN c n bytes
      = some (pd, bytes.drop (c.pixel_type.bytesPerSample * n)) := by
  obtain ⟨vs, hvs⟩ := readSamples_some _ n bytes h
  exact ⟨PixelData.make c.pixel_type vs, by simp [readChannelN, hvs]⟩

theorem unpackChannelsWith_truncated (count : Channel → Nat)
    (cs : List Channel) : ∀ bytes : List Nat,
    bytes.length < requiredByteSizeWith count cs →
    unpackChannelsWith count cs bytes = .err .TruncatedInput := by
  induction cs with
  | nil => intro bytes h; simp [requiredByteSizeWith] at h
  | cons c cs ih =>
    intro bytes h
    simp only [requiredByteSizeWith, List.map_cons, List.sum_cons] at h
    simp only [unpackChannelsWith]
    by_cases hc : c.pixel_type.bytesPerSample * count c ≤ bytes.length
    · obtain ⟨pd, hpd⟩ := readChannelN_some c (count c) bytes hc
      rw [hpd]
      show CResult.map (fun x => pd :: x)
        (unpackChannelsWith count cs
          (bytes.drop (c.pixel_type.bytesPerSample * count c))) = _
      rw [ih _ (by rw [List.length_drop]; unfold requiredByteSizeWith; omega)]
      rfl
    · rw [readChannelN_none c (count c) bytes (by omega)]

theorem unpackChannelsWith_ok (count : Channel → Nat)
    (cs : List Channel) : ∀ bytes : List Nat,
    requiredByteSizeWith count cs ≤ bytes.length →
    ∃ pds, unpackChannelsWith count cs bytes = .ok pds := by
  induction cs with
  | nil => intro bytes _; exact ⟨[], rfl⟩
  | cons c cs ih =>
    intro bytes h
    simp only [requiredByteSizeWith, List.map_cons, List.sum_cons] at h
    have hc : c.pixel_type.bytesPerSample * count c ≤ bytes.length := by omega
    obtain ⟨pd, hpd⟩ := readChannelN_some c (count c) bytes hc
    obtain ⟨pds, hpds⟩ := ih
      (bytes.drop (c.pixel_type.bytesPerSample * count c))
      (by rw [List.length_drop]; unfold requiredByteSizeWith; omega)
    refine ⟨pd :: pds, ?_⟩
    simp only [unpackChannelsWith, hpd]
    show CResult.map (fun x => pd :: x)
      (unpackChannelsWith count cs
        (bytes.drop (c.pixel_type.bytesPerSample * count c))) = _
    rw [hpds]
    rfl

/-! ## Shape of a successful unpack -/

theorem PixelData.typeOf_make (t : PixelType) (vs : List Nat) :
    (PixelData.make t vs).typeOf = t := by
  cases t <;> rfl

theorem readChannelN_typeOf (c : Channel) (n : Nat) (bytes : List Nat)
    (pd : PixelData) (rest : List Nat)
    (h : readChannelN c n bytes = some (pd, rest)) :
    pd.typeOf = c.pixel_type := by
  unfold readChannelN at h
  cases hrs : readSamples c.pixel_type.bytesPerSample n bytes with
  | none => rw [hrs] at h; simp at h
  | some p =>
    rw [hrs] at h
    simp only [Option.map_some', Option.some.injEq, Prod.mk.injEq] at h
    rw [← h.1, PixelData.typeOf_make]

theorem unpackChannelsWith_forall₂ (count : Channel → Nat)
    (cs : List Channel) : ∀ (bytes : List Nat) (pds : List PixelData),
    unpackChannelsWith count cs bytes = .ok pds →
    List.Forall₂ (fun pd c => PixelData.typeOf pd = c.pixel_type) pds cs := by
  induction cs with
  | nil =>
    intro bytes pds h
    simp only [unpackChannelsWith, CResult.ok.injEq] at h
    rw [← h]
    exact List.Forall₂.nil
  | cons c cs ih =>
    intro bytes pds h
    simp only [unpackChannelsWith] at h
    cases hrc : readChannelN c (count c) bytes with
    | none => rw [hrc] at h; simp at h
    | some pr =>
      obtain ⟨pd, rest⟩ := pr
      rw [hrc] at h
      have h2 : CResult.map (fun x => pd :: x)
        (unpackChannelsWith count cs rest) = .ok pds := h
      cases hu : unpackChannelsWith count cs rest with
      | ok pds' =>
        rw [hu] at h2
        simp only [CResult.map, CResult.ok.injEq] at h2
        rw [← h2]
        exact List.Forall₂.cons (readChannelN_typeOf c (count c) bytes pd rest hrc)
          (ih rest pds' hu)
      | err e =>
        rw [hu] at h2
        simp [CResult.map] at h2

/-! ## Ceiling division -/

theorem ceilDivNat_eq_ceil (a s : Nat) (hs : 0 < s) :
    (ceilDivNat a s : ℤ) = ⌈(a : ℚ) / (s : ℚ)⌉ := by
  have hd := Nat.div_add_mod (a + s - 1) s
  have hm : (a + s - 1) % s < s := Nat.mod_lt _ hs
  have hsq : (0 : ℚ) < (s : ℚ) := by exact_mod_cast hs
  unfold ceilDivNat
  rw [eq_comm, Int.ceil_eq_iff, Int.cast_natCast]
  set q : ℕ := (a + s - 1) / s with hqdef
  set m : ℕ := (a + s - 1) % s with hmdef
  have hdq : (s : ℚ) * (q : ℚ) + (m : ℚ) = (a : ℚ) + (s : ℚ) - 1 := by
    have h1 : (1 : ℕ) ≤ a + s := by omega
    have hc := congrArg (fun n : ℕ => (n : ℚ)) hd
    push_cast [Nat.cast_sub h1] at hc
    linarith [hc]
  have hmq : (m : ℚ) + 1 ≤ (s : ℚ) := by exact_mod_cast hm
  have hm0 : (0 : ℚ) ≤ (m : ℚ) := by positivity
  constructor
  · rw [lt_div_iff₀ hsq]
    nlinarith [hdq, hmq, hm0, hsq]
  · rw [div_le_iff₀ hsq]
    nlinarith [hdq, hmq, hm0, hsq]

/-! ## Concrete data shared by the witnesses -/

/-- A concrete channel list spanning all three pixel types, the third
channel subsampled (2,2). -/
def exChannels : List Channel :=
  [⟨"R", .U32, 1, 1⟩, ⟨"G", .F16, 1, 1⟩, ⟨"B", .F32, 2, 2⟩]

/-- A concrete 2×2 block geometry. -/
def exGeom : BlockGeometry :=
  ⟨2, 2⟩

/-- A concrete well-formed scan-line data section for
`exChannels`/`exGeom`. -/
def exData : DataSection :=
  .ScanLine ⟨[.U32 [1, 2, 3, 4294967295], .F16 [0, 65535, 7, 8], .F32 [4000000000]]⟩

/-! ## The claims -/

/-- C1: for method ∈ {None, ZIP, ZIPS} and any well-formed data section,
decompressing the result of compressing it with the same method, block
kind, channel list and geometry yields the original data section exactly,
byte-for-byte per channel buffer. The external deflate-style compressor
(out of scope per §6) is passed in as a lossless `deflate`/`inflate`
pair. -/
theorem c1_round_trip (m : Compression)
    (hm : m = .None ∨ m = .ZIP ∨ m = .ZIPS)
    (deflate : List Nat → List Nat) (inflate : List Nat → Option (List Nat))
    (hlossless : ∀ b, inflate (deflate b) = some b)
    (ds : DataSection) (channels : List Channel) (g : BlockGeometry)
    (hwf : ds.wf channels g = true) :
    (compress m deflate ds).bind
      (fun bytes => decompress m inflate ds.kind bytes none channels g)
      = .ok ds := by
  have hzip : zipDecompress inflate (deflate (deltaEncode (pack ds))) none
      ds.kind channels g = .ok ds := by
    unfold zipDecompress
    rw [hlossless]
    show (validateSize none ds.kind channels g (deltaDecode (deltaEncode (pack ds)))).bind
      (fun _ => unpack ds.kind (deltaDecode (deltaEncode (pack ds))) channels g) = .ok ds
    rw [deltaDecode_deltaEncode (pack ds) (pack_lt_256 ds)]
    exact unpack_pack ds channels g hwf
  rcases hm with hm | hm | hm <;> subst hm
  · exact unpack_pack ds channels g hwf
  · exact hzip
  · exact hzip

/-- Witness for C1: the ZIP method, an identity deflate/inflate pair, and a
concrete scan-line section spanning all three pixel types. -/
theorem c1_round_trip_witness :
    exData.wf exChannels exGeom = true ∧
    (compress .ZIP (fun b => b) exData).bind
      (fun bytes => decompress .ZIP (fun b => some b) exData.kind bytes none
        exChannels exGeom)
      = .ok exData :=
  ⟨by decide,
    c1_round_trip .ZIP (Or.inr (Or.inl rfl)) (fun b => b) (fun b => some b)
      (fun _ => rfl) exData exChannels exGeom (by decide)⟩

/-- C2, evaluated on the source embedding: for every unimplemented method
(`RLE`, `PIZ`, `PXR24`, `B44`, `B44A`) and every input — every block kind
included, hence every deep block kind — both `compress` and `decompress`
reach `unimplemented!()` and abort the process; no `Unsupported(method)`
error value exists in the source's `CompressionError` enum, and none is
returned. -/
theorem c2_unimplemented_methods_abort :
    (∀ ds : DataSection, srcCompress .RLE ds = .panic) ∧
    (∀ ds : DataSection, srcCompress .PIZ ds = .panic) ∧
    (∀ ds : DataSection, srcCompress .PXR24 ds = .panic) ∧
    (∀ ds : DataSection, srcCompress .B44 ds = .panic) ∧
    (∀ ds : DataSection, srcCompress .B44A ds = .panic) ∧
    (∀ (k : BlockKind) (bytes : List Nat) (sz : Option Nat) (cs : List Channel),
      srcDecompress .RLE k bytes sz cs = .panic ∧
      srcDecompress .PIZ k bytes sz cs = .panic ∧
      srcDecompress .PXR24 k bytes sz cs = .panic ∧
      srcDecompress .B44 k bytes sz cs = .panic ∧
      srcDecompress .B44A k bytes sz cs = .panic) :=
  ⟨fun _ => rfl, fun _ => rfl, fun _ => rfl, fun _ => rfl, fun _ => rfl,
    fun _ _ _ _ => ⟨rfl, rfl, rfl, rfl, rfl⟩⟩

/-- C3: in the modelled `decompress`, whenever an expected uncompressed
size is supplied it is validated against the geometry-derived size, and a
mismatch is reported as `SizeMismatch` — for the implemented methods on
non-deep block kinds (the hypothesis on `inflate` makes the ZIP/ZIPS path
reach validation). -/
theorem c3_size_mismatch (m : Compression)
    (inflate : List Nat → Option (List Nat)) (k : BlockKind)
    (bytes buf : List Nat) (e : Nat) (channels : List Channel)
    (g : BlockGeometry)
    (hk : k = .ScanLine ∨ k = .Tile)
    (hne : e ≠ channelsByteSize channels g)
    (hm : m = .None ∨ ((m = .ZIP ∨ m = .ZIPS) ∧ inflate bytes = some buf)) :
    decompress m inflate k bytes (some e) channels g
      = .err (.SizeMismatch e (channelsByteSize channels g)) := by
  have hval : ∀ restored : List Nat, validateSize (some e) k channels g restored
      = .err (.SizeMismatch e (channelsByteSize channels g)) := by
    intro restored
    rcases hk with hk | hk <;> subst hk <;> simp [validateSize, derivedSize, hne]
  rcases hm with hm | ⟨hm, hinf⟩
  · subst hm
    show (validateSize (some e) k channels g bytes).bind
      (fun _ => unpack k bytes channels g) = _
    rw [hval]
    rfl
  · have hz : zipDecompress inflate bytes (some e) k channels g
        = .err (.SizeMismatch e (channelsByteSize channels g)) := by
      unfold zipDecompress
      rw [hinf]
      show (validateSize (some e) k channels g (deltaDecode buf)).bind
        (fun _ => unpack k (deltaDecode buf) channels g) = _
      rw [hval]
      rfl
    rcases hm with hm | hm <;> subst hm <;> exact hz

/-- Witness for C3: supplying an expected size of 3 where the geometry
demands 28 bytes yields the declared mismatch error. -/
theorem c3_size_mismatch_witness :
    (3 : Nat) ≠ channelsByteSize exChannels exGeom ∧
    decompress .None (fun b => some b) .ScanLine [] (some 3) exChannels exGeom
      = .err (.SizeMismatch 3 (channelsByteSize exChannels exGeom)) :=
  ⟨by decide,
    c3_size_mismatch .None (fun b => some b) .ScanLine [] [] 3 exChannels exGeom
      (Or.inl rfl) (by decide) (Or.inl rfl)⟩

/-- C4 (spec-modelled unpack): for a non-deep block kind, an input holding
fewer bytes than the channels' geometry-derived requirement (consumed in
channel order) yields `TruncatedInput`; once every channel is satisfiable
the unpack succeeds, so input bytes left over after the last channel are
accepted without error. The modelled unpack returns an outcome value on
every input; it has no abort. -/
theorem c4_truncation (k : BlockKind) (bytes : List Nat)
    (channels : List Channel) (g : BlockGeometry)
    (hk : k = .ScanLine ∨ k = .Tile) :
    (bytes.length < channelsByteSize channels g →
      unpack k bytes channels g = .err .TruncatedInput) ∧
    (channelsByteSize channels g ≤ bytes.length →
      ∃ ds, unpack k bytes channels g = .ok ds) := by
  rw [channelsByteSize_eq_required]
  rcases hk with hk | hk <;> subst hk
  · constructor
    · intro h
      have ht := unpackChannelsWith_truncated (fun c => c.sampleCount g) channels bytes h
      show CResult.map (fun pds => DataSection.ScanLine ⟨pds⟩)
        (unpackChannelsWith (fun c => c.sampleCount g) channels bytes) = _
      rw [ht]
      rfl
    · intro h
      obtain ⟨pds, hp⟩ := unpackChannelsWith_ok (fun c => c.sampleCount g) channels bytes h
      refine ⟨.ScanLine ⟨pds⟩, ?_⟩
      show CResult.map (fun pds => DataSection.ScanLine ⟨pds⟩)
        (unpackChannelsWith (fun c => c.sampleCount g) channels bytes) = _
      rw [hp]
      rfl
  · constructor
    · intro h
      have ht := unpackChannelsWith_truncated (fun c => c.sampleCount g) channels bytes h
      show CResult.map (fun pds => DataSection.Tile ⟨pds⟩)
        (unpackChannelsWith (fun c => c.sampleCount g) channels bytes) = _
      rw [ht]
      rfl
    · intro h
      obtain ⟨pds, hp⟩ := unpackChannelsWith_ok (fun c => c.sampleCount g) channels bytes h
      refine ⟨.Tile ⟨pds⟩, ?_⟩
      show CResult.map (fun pds => DataSection.Tile ⟨pds⟩)
        (unpackChannelsWith (fun c => c.sampleCount g) channels bytes) = _
      rw [hp]
      rfl

/-- Witness for C4: 5 bytes are too few for the 28 bytes the channels
require, while 30 bytes (2 bytes of trailing garbage) are accepted. -/
theorem c4_truncation_witness :
    unpack .ScanLine [0, 0, 0, 0, 0] exChannels exGeom = .err .TruncatedInput ∧
    ∃ ds, unpack .ScanLine (List.replicate 30 0) exChannels exGeom = .ok ds :=
  ⟨(c4_truncation .ScanLine [0, 0, 0, 0, 0] exChannels exGeom (Or.inl rfl)).1
      (by decide),
    (c4_truncation .ScanLine (List.replicate 30 0) exChannels exGeom (Or.inl rfl)).2
      (by decide)⟩

/-- C5: `scan_lines_per_block` returns exactly the fixed table value for
each of the eight methods; the function takes nothing but the method, so
the value is independent of any image data. -/
theorem c5_scan_lines_per_block_table :
    Compression.scan_lines_per_block .None = 1 ∧
    Compression.scan_lines_per_block .RLE = 1 ∧
    Compression.scan_lines_per_block .ZIPS = 1 ∧
    Compression.scan_lines_per_block .ZIP = 16 ∧
    Compression.scan_lines_per_block .PXR24 = 16 ∧
    Compression.scan_lines_per_block .PIZ = 32 ∧
    Compression.scan_lines_per_block .B44 = 32 ∧
    Compression.scan_lines_per_block .B44A = 32 := by
  decide

/-- C6: `supports_deep_data` is true on exactly {None, RLE, ZIPS, ZIP} and
false on the other four methods. -/
theorem c6_supports_deep_data_table :
    Compression.supports_deep_data .None = true ∧
    Compression.supports_deep_data .RLE = true ∧
    Compression.supports_deep_data .ZIPS = true ∧
    Compression.supports_deep_data .ZIP = true ∧
    Compression.supports_deep_data .PIZ = false ∧
    Compression.supports_deep_data .PXR24 = false ∧
    Compression.supports_deep_data .B44 = false ∧
    Compression.supports_deep_data .B44A = false := by
  decide

/-- C7: the byte-wise delta filter and the mod-256 prefix-summation filter
are mutual inverses on every byte buffer. -/
theorem c7_delta_inverse (buf : List Nat) (hbytes : ∀ b ∈ buf, b < 256) :
    deltaDecode (deltaEncode buf) = buf ∧ deltaEncode (deltaDecode buf) = buf :=
  ⟨deltaDecode_deltaEncode buf hbytes, deltaEncode_deltaDecode buf hbytes⟩

/-- Witness for C7 on a concrete buffer with wraparound. -/
theorem c7_delta_inverse_witness :
    deltaDecode (deltaEncode [5, 250, 3, 77]) = [5, 250, 3, 77] ∧
    deltaEncode (deltaDecode [5, 250, 3, 77]) = [5, 250, 3, 77] :=
  c7_delta_inverse [5, 250, 3, 77] (by decide)

/-- C8: the geometry-derived per-channel sample count equals
⌈blockWidth / subsamplingX⌉ × ⌈blockHeight / subsamplingY⌉ (true ceiling
division); in particular a channel subsampled (2,2) in a 4×4 block has
exactly 4 samples. -/
theorem c8_sample_count_formula :
    (∀ (c : Channel) (g : BlockGeometry),
      0 < c.subsampling_x → 0 < c.subsampling_y →
      (c.sampleCount g : ℤ)
        = ⌈(g.width : ℚ) / (c.subsampling_x : ℚ)⌉
          * ⌈(g.height : ℚ) / (c.subsampling_y : ℚ)⌉) ∧
    Channel.sampleCount ⟨"Y", .F16, 2, 2⟩ ⟨4, 4⟩ = 4 := by
  constructor
  · intro c g hx hy
    unfold Channel.sampleCount
    push_cast
    rw [ceilDivNat_eq_ceil _ _ hx, ceilDivNat_eq_ceil _ _ hy]
  · decide

/-- Witness for C8 at a concrete non-dividing geometry. -/
theorem c8_sample_count_witness :
    ((Channel.sampleCount ⟨"R", .U32, 3, 2⟩ ⟨10, 7⟩ : Nat) : ℤ)
      = ⌈((10 : Nat) : ℚ) / ((3 : Nat) : ℚ)⌉ * ⌈((7 : Nat) : ℚ) / ((2 : Nat) : ℚ)⌉ :=
  c8_sample_count_formula.1 ⟨"R", .U32, 3, 2⟩ ⟨10, 7⟩ (by decide) (by decide)

/-- C9: ZIP and ZIPS route to the very same codec functions — in the source
dispatcher and in the modelled one — and differ only in
`scan_lines_per_block` (16 versus 1). -/
theorem c9_zip_zips_same_transform :
    (∀ ds : DataSection, srcCompress .ZIP ds = srcCompress .ZIPS ds) ∧
    (∀ (k : BlockKind) (bytes : List Nat) (sz : Option Nat) (cs : List Channel),
      srcDecompress .ZIP k bytes sz cs = srcDecompress .ZIPS k bytes sz cs) ∧
    (∀ (deflate : List Nat → List Nat) (ds : DataSection),
      compress .ZIP deflate ds = compress .ZIPS deflate ds) ∧
    (∀ (inflate : List Nat → Option (List Nat)) (k : BlockKind)
      (bytes : List Nat) (sz : Option Nat) (cs : List Channel) (g : BlockGeometry),
      decompress .ZIP inflate k bytes sz cs g
        = decompress .ZIPS inflate k bytes sz cs g) ∧
    Compression.scan_lines_per_block .ZIP = 16 ∧
    Compression.scan_lines_per_block .ZIPS = 1 :=
  ⟨fun _ => rfl, fun _ _ _ _ => rfl, fun _ _ => rfl, fun _ _ _ _ _ _ => rfl,
    rfl, rfl⟩

/-- C10: whenever `unpack` (the method-`None` path of `decompress`)
succeeds on a `ScanLine` block, the result is the `ScanLine` variant with
exactly one pixel buffer per input channel, in the same order, each
buffer's storage variant matching the channel's declared pixel type. -/
theorem c10_unpack_scanline_shape (bytes : List Nat) (channels : List Channel)
    (g : BlockGeometry) (ds : DataSection)
    (h : unpack .ScanLine bytes channels g = .ok ds) :
    ∃ pds : List PixelData, ds = .ScanLine ⟨pds⟩ ∧
      pds.length = channels.length ∧
      List.Forall₂ (fun pd c => PixelData.typeOf pd = c.pixel_type) pds channels := by
  have h2 : CResult.map (fun pds => DataSection.ScanLine ⟨pds⟩)
    (unpackChannelsWith (fun c => c.sampleCount g) channels bytes) = .ok ds := h
  cases hu : unpackChannelsWith (fun c => c.sampleCount g) channels bytes with
  | ok pds =>
    rw [hu] at h2
    simp only [CResult.map, CResult.ok.injEq] at h2
    have hf := unpackChannelsWith_forall₂ _ channels bytes pds hu
    exact ⟨pds, h2.symm, hf.length_eq, hf⟩
  | err e =>
    rw [hu] at h2
    simp [CResult.map] at h2

/-- Witness for C10: unpacking the packed bytes of the concrete section. -/
theorem c10_unpack_scanline_witness :
    ∃ pds : List PixelData, exData = .ScanLine ⟨pds⟩ ∧
      pds.length = exChannels.length ∧
      List.Forall₂ (fun pd c => PixelData.typeOf pd = c.pixel_type) pds exChannels :=
  c10_unpack_scanline_shape (pack exData) exChannels exGeom exData (by decide)

end Exr
